import Mathlib

/-!
Verification development for `install.py`, the installation script of the
`claude-dbapps-command` repository.  The script copies command files from
`<script_dir>/commands` into `~/.claude/commands`, optionally after a
`git pull`, printing colored progress messages and handling errors at a
single top-level `try/except`.

The embedding below models:
  * the filesystem as an explicit state (`FS`): a set of directories, an
    association list of files (content plus `copy2`-preserved metadata),
    and a set of directories in which new entries may not be created
    (modelling permission errors);
  * console output as a list of structured events (`OutEvent`), one
    constructor per `print` / `print_colored` call site in the source
    (the `end=""` keyword arguments, which only affect line joining, are
    not modelled);
  * path separators as `/` in `pathStr`;
  * Python exceptions as `Except` / `Option` error values (`Err`), with
    the OS-provided message text abstracted by `errMsg`.
-/

/-- A filesystem path, as a list of segments. -/
abbrev FsPath := List String

/-- The data `shutil.copy2` transports: content plus preserved metadata
(modification time and permission bits). -/
structure FileData where
  content : String
  mtime : Nat
  mode : Nat
deriving DecidableEq, Repr

/-- Filesystem state: existing directories, files (as an association list
from path to data), and directories where creating new entries fails with
a permission error. -/
structure FS where
  dirs : List FsPath
  files : List (FsPath × FileData)
  unwritable : List FsPath
deriving DecidableEq, Repr

/-- Lookup in the file association list. -/
def lookupFile : List (FsPath × FileData) → FsPath → Option FileData
  | [], _ => none
  | e :: rest, p => if e.1 = p then some e.2 else lookupFile rest p

/-- Update-or-append in the file association list (writing a file). -/
def setAssoc : List (FsPath × FileData) → FsPath → FileData → List (FsPath × FileData)
  | [], p, d => [(p, d)]
  | e :: rest, p, d => if e.1 = p then (p, d) :: rest else e :: setAssoc rest p d

def FS.isDir (fs : FS) (p : FsPath) : Bool := fs.dirs.contains p

def FS.getFile (fs : FS) (p : FsPath) : Option FileData := lookupFile fs.files p

def FS.isFile (fs : FS) (p : FsPath) : Bool := (fs.getFile p).isSome

/-- `Path.exists()` in Python: true for a file or a directory at the path. -/
def FS.pathExists (fs : FS) (p : FsPath) : Bool := fs.isDir p || fs.isFile p

def FS.setFile (fs : FS) (p : FsPath) (d : FileData) : FS :=
  { fs with files := setAssoc fs.files p d }

/-- Does `pat` occur at the start of `s`? -/
def matchAt : List Char → List Char → Bool
  | [], _ => true
  | _ :: _, [] => false
  | a :: pat, b :: s => a == b && matchAt pat s

/-- Does `pat` occur anywhere in `s`? -/
def matchSomewhere (pat : List Char) : List Char → Bool
  | [] => matchAt pat []
  | b :: s => matchAt pat (b :: s) || matchSomewhere pat s

/-- Substring test, as Python's `in` on strings. -/
def containsSubstr (s pat : String) : Bool := matchSomewhere pat.data s.data

/-- Errors (Python exceptions) that the modelled filesystem operations raise. -/
inductive Err where
  | mkdirFailed (p : FsPath)
  | copyFailed (src dst : FsPath)
deriving DecidableEq, Repr

/-- Render a path with `/` as separator. -/
def pathStr (p : FsPath) : String := String.intercalate "/" p

/-- The message text of an exception (OS wording abstracted). -/
def errMsg : Err → String
  | Err.mkdirFailed p => "cannot create directory " ++ pathStr p
  | Err.copyFailed s d => "cannot copy " ++ pathStr s ++ " to " ++ pathStr d

/-- `Path.mkdir(parents=True, exist_ok=True)`, one segment at a time:
an existing directory segment is fine (`exist_ok`), a file occupying a
segment raises, creating inside an unwritable directory raises, otherwise
the segment directory is created.  On failure the directories already
created remain (as on a real filesystem). -/
def FS.mkdirRec (fs : FS) (cur : FsPath) : List String → FS × Option Err
  | [] => (fs, none)
  | s :: rest =>
    let p := cur ++ [s]
    if fs.isDir p then fs.mkdirRec p rest
    else if fs.isFile p then (fs, some (Err.mkdirFailed p))
    else if fs.unwritable.contains cur then (fs, some (Err.mkdirFailed p))
    else ({ fs with dirs := p :: fs.dirs }).mkdirRec p rest

def FS.mkdirParents (fs : FS) (p : FsPath) : FS × Option Err :=
  fs.mkdirRec [] p

/-- `shutil.copy2(src, dst)`: reads the source file (raising if there is
no regular file there) and writes content and metadata to `dst`, which
requires the parent of `dst` to be an existing directory; any existing
file at `dst` is overwritten. -/
def FS.copy2 (fs : FS) (src dst : FsPath) : Except Err FS :=
  match fs.getFile src with
  | none => Except.error (Err.copyFailed src dst)
  | some d =>
    if fs.isDir dst.dropLast then Except.ok (fs.setFile dst d)
    else Except.error (Err.copyFailed src dst)

/-! ## Console output -/

/-- ANSI color selected at each `print_colored` call site. -/
inductive Color where
  | green
  | blue
  | yellow
deriving DecidableEq, Repr

def GREEN : String := "\x1b[0;32m"
def BLUE : String := "\x1b[0;34m"
def YELLOW : String := "\x1b[1;33m"
def NC : String := "\x1b[0m"

def colorStr : Color → String
  | Color.green => GREEN
  | Color.blue => BLUE
  | Color.yellow => YELLOW

/-- One constructor per print call site of `install.py`, carrying the
dynamic data that call interpolates. -/
inductive OutEvent where
  | hdrRule
  | titleUpdating
  | titleInstalling
  | blank
  | updBanner
  | notRepoWarn
  | cloneHint
  | cloneCmd
  | pulling
  | updOk
  | updAlready
  | updFailed (stderrText : String)
  | gitMissing
  | gitMissingHint
  | creating (p : FsPath)
  | copying
  | installed (f : String)
  | missingWarn (f : String)
  | doneRule
  | doneMsg
  | cmdsAvailable
  | cmdsHdr
  | cmdDbapps
  | cmdDbappsDesc
  | cmdDbtest
  | cmdDbtestDesc
  | usageHdr
  | usage1
  | usage2
  | usage2Tail
  | usage3
  | usage3Tail
  | filesHdr
  | installedPath (p : FsPath)
  | successSummary (n : Nat)
  | errorMsg (s : String)
deriving DecidableEq, Repr

/-- The exact text printed by each call site. -/
def eventText : OutEvent → String
  | OutEvent.hdrRule => String.mk (List.replicate 50 '=')
  | OutEvent.titleUpdating => "Updating and Installing Databricks App commands"
  | OutEvent.titleInstalling => "Installing Databricks App commands for Claude Code"
  | OutEvent.blank => ""
  | OutEvent.updBanner => "🔄 Updating from GitHub repository..."
  | OutEvent.notRepoWarn => "⚠ Warning: Not a git repository. Skipping update."
  | OutEvent.cloneHint => "  To enable updates, clone from GitHub:"
  | OutEvent.cloneCmd => "  git clone https://github.com/honnuanand/claude-dbapps-command.git"
  | OutEvent.pulling => "Pulling latest changes..."
  | OutEvent.updOk => "✓ Successfully updated from GitHub"
  | OutEvent.updAlready => "  Repository is already up to date"
  | OutEvent.updFailed s => "❌ Failed to update: " ++ s
  | OutEvent.gitMissing => "⚠ Warning: git command not found"
  | OutEvent.gitMissingHint => "  Install git to enable automatic updates"
  | OutEvent.creating p => "Creating " ++ pathStr p ++ "..."
  | OutEvent.copying => "Copying command files..."
  | OutEvent.installed f => "✓ Installed " ++ f
  | OutEvent.missingWarn f => "⚠ Warning: " ++ f ++ " not found"
  | OutEvent.doneRule => String.mk (List.replicate 45 '=')
  | OutEvent.doneMsg => "Installation complete!"
  | OutEvent.cmdsAvailable => "The following commands are now available in Claude Code!"
  | OutEvent.cmdsHdr => "Commands:"
  | OutEvent.cmdDbapps => "  /dbapps       "
  | OutEvent.cmdDbappsDesc => "- Create a React + FastAPI app with Databricks deployment"
  | OutEvent.cmdDbtest => "  /dbtestrunner "
  | OutEvent.cmdDbtestDesc => "- Add an in-app Test Runner framework to a Databricks App"
  | OutEvent.usageHdr => "Usage:"
  | OutEvent.usage1 => "  1. Open Claude Code in any directory"
  | OutEvent.usage2 => "  2. Type: /dbapps"
  | OutEvent.usage2Tail => " to create a new Databricks App"
  | OutEvent.usage3 => "  3. Type: /dbtestrunner"
  | OutEvent.usage3Tail => " to add an in-app test runner"
  | OutEvent.filesHdr => "Files installed to:"
  | OutEvent.installedPath p => "  " ++ pathStr p
  | OutEvent.successSummary n => "✓ Successfully installed " ++ toString n ++ " file(s)"
  | OutEvent.errorMsg s => "❌ Error: " ++ s

/-- The color each call site passes to `print_colored`
(`none` for calls to the plain `print`). -/
def eventColor : OutEvent → Option Color
  | OutEvent.hdrRule => some Color.blue
  | OutEvent.titleUpdating => some Color.blue
  | OutEvent.titleInstalling => some Color.blue
  | OutEvent.blank => none
  | OutEvent.updBanner => some Color.blue
  | OutEvent.notRepoWarn => some Color.yellow
  | OutEvent.cloneHint => some Color.yellow
  | OutEvent.cloneCmd => none
  | OutEvent.pulling => some Color.blue
  | OutEvent.updOk => some Color.green
  | OutEvent.updAlready => some Color.blue
  | OutEvent.updFailed _ => some Color.yellow
  | OutEvent.gitMissing => some Color.yellow
  | OutEvent.gitMissingHint => some Color.yellow
  | OutEvent.creating _ => some Color.yellow
  | OutEvent.copying => some Color.blue
  | OutEvent.installed _ => some Color.green
  | OutEvent.missingWarn _ => some Color.yellow
  | OutEvent.doneRule => some Color.green
  | OutEvent.doneMsg => some Color.green
  | OutEvent.cmdsAvailable => some Color.blue
  | OutEvent.cmdsHdr => some Color.blue
  | OutEvent.cmdDbapps => some Color.green
  | OutEvent.cmdDbappsDesc => none
  | OutEvent.cmdDbtest => some Color.green
  | OutEvent.cmdDbtestDesc => none
  | OutEvent.usageHdr => some Color.blue
  | OutEvent.usage1 => none
  | OutEvent.usage2 => some Color.green
  | OutEvent.usage2Tail => none
  | OutEvent.usage3 => some Color.green
  | OutEvent.usage3Tail => none
  | OutEvent.filesHdr => some Color.blue
  | OutEvent.installedPath _ => none
  | OutEvent.successSummary _ => some Color.green
  | OutEvent.errorMsg _ => some Color.yellow

/-- The environment data `print_colored` consults:
`sys.platform` and `os.getenv('TERM')` (with `none` for an unset
variable; an empty string is falsy in Python). -/
structure ConsoleEnv where
  platform : String
  termVar : Option String
deriving DecidableEq, Repr

/-- The condition of line 23: `sys.platform != 'win32' or os.getenv('TERM')`. -/
def supportsColor (env : ConsoleEnv) : Bool :=
  (env.platform != "win32") || (match env.termVar with
    | some t => t != ""
    | none => false)

/-- `print_colored`: wrap the text in the color code and the reset code
when the environment supports color, otherwise print it plain. -/
def print_colored (env : ConsoleEnv) (text : String) (color : String) : String :=
  if supportsColor env then color ++ text ++ NC else text

/-- Render one output event to the string actually written. -/
def renderEvent (env : ConsoleEnv) (ev : OutEvent) : String :=
  match eventColor ev with
  | some c => print_colored env (eventText ev) (colorStr c)
  | none => eventText ev

/-! ## Repository updater -/

/-- Result of one `subprocess.run(..., capture_output=True, text=True)`. -/
structure ProcResult where
  returncode : Int
  stdout : String
  stderr : String
deriving DecidableEq, Repr

/-- The behaviour of the external `git` tool in this run: whether the
executable can be found, and the results of the two invoked subcommands. -/
structure GitEnv where
  gitFound : Bool
  revParse : ProcResult
  pull : ProcResult
deriving DecidableEq, Repr

/-- `update_from_repo`: check the directory is a git checkout, then pull;
every failure path returns `false` after printing a warning.  A missing
`git` executable raises `FileNotFoundError` at the first `subprocess.run`
call, after the banner lines, and is caught by the local handler. -/
def update_from_repo (g : GitEnv) : List OutEvent × Bool :=
  if g.gitFound = false then
    ([OutEvent.updBanner, OutEvent.blank,
      OutEvent.gitMissing, OutEvent.gitMissingHint, OutEvent.blank], false)
  else if g.revParse.returncode ≠ 0 then
    ([OutEvent.updBanner, OutEvent.blank,
      OutEvent.notRepoWarn, OutEvent.cloneHint, OutEvent.cloneCmd, OutEvent.blank], false)
  else if g.pull.returncode = 0 then
    ([OutEvent.updBanner, OutEvent.blank, OutEvent.pulling, OutEvent.updOk] ++
      (if containsSubstr g.pull.stdout "Already up to date" then [OutEvent.updAlready] else []) ++
      [OutEvent.blank], true)
  else
    ([OutEvent.updBanner, OutEvent.blank, OutEvent.pulling,
      OutEvent.updFailed g.pull.stderr], false)

/-! ## File installer -/

/-- The hard-coded manifest of line 89. -/
def files_to_copy : List String :=
  ["dbapps.md", "dbtestrunner.md", "deploy_to_databricks_template.py"]

/-- `script_dir / "commands"`. -/
def commandsSrc (scriptDir : FsPath) : FsPath := scriptDir ++ ["commands"]

/-- `Path.home() / ".claude" / "commands"`. -/
def commandsDst (home : FsPath) : FsPath := home ++ [".claude", "commands"]

/-- The per-file copy loop of lines 96-105.  Returns the printed events,
the resulting filesystem, and either the success count or the first
exception (which aborts the loop, as an uncaught Python exception does). -/
def copyLoop (srcDir dstDir : FsPath) (fs : FS) : List String → List OutEvent × FS × Except Err Nat
  | [] => ([], fs, Except.ok 0)
  | f :: rest =>
    if fs.pathExists (srcDir ++ [f]) then
      match fs.copy2 (srcDir ++ [f]) (dstDir ++ [f]) with
      | Except.error e => ([], fs, Except.error e)
      | Except.ok fs1 =>
        let r := copyLoop srcDir dstDir fs1 rest
        (OutEvent.installed f :: r.1, r.2.1, r.2.2.map (· + 1))
    else
      let r := copyLoop srcDir dstDir fs rest
      (OutEvent.missingWarn f :: r.1, r.2.1, r.2.2)

/-- The fixed summary block of lines 107-136 (banner, usage, the
destination path of every manifest entry, and the final count). -/
def summaryEvents (dst : FsPath) (n : Nat) : List OutEvent :=
  [OutEvent.blank, OutEvent.doneRule, OutEvent.doneMsg, OutEvent.doneRule, OutEvent.blank,
   OutEvent.cmdsAvailable, OutEvent.blank,
   OutEvent.cmdsHdr, OutEvent.cmdDbapps, OutEvent.cmdDbappsDesc,
   OutEvent.cmdDbtest, OutEvent.cmdDbtestDesc, OutEvent.blank,
   OutEvent.usageHdr, OutEvent.usage1, OutEvent.usage2, OutEvent.usage2Tail,
   OutEvent.usage3, OutEvent.usage3Tail, OutEvent.blank,
   OutEvent.filesHdr] ++
  files_to_copy.map (fun f => OutEvent.installedPath (dst ++ [f])) ++
  [OutEvent.blank, OutEvent.successSummary n]

/-- `install_files`: create the destination directory when the path does
not exist, copy each manifest file that exists in the source, then print
the summary.  An exception aborts the remaining steps and propagates
(the events already printed and the filesystem changes already made
remain). -/
def install_files (fs : FS) (scriptDir home : FsPath) : List OutEvent × FS × Except Err Nat :=
  let commands_dst := commandsDst home
  let step1 : List OutEvent × FS × Option Err :=
    if fs.pathExists commands_dst then ([], fs, none)
    else
      let r := fs.mkdirParents commands_dst
      ([OutEvent.creating commands_dst], r.1, r.2)
  match step1 with
  | (out1, fs1, some e) => (out1, fs1, Except.error e)
  | (out1, fs1, none) =>
    match copyLoop (commandsSrc scriptDir) commands_dst fs1 files_to_copy with
    | (outL, fs2, Except.ok k) =>
      (out1 ++ OutEvent.copying :: (outL ++ summaryEvents commands_dst k), fs2, Except.ok k)
    | (outL, fs2, Except.error e) =>
      (out1 ++ OutEvent.copying :: outL, fs2, Except.error e)

/-! ## CLI entry points -/

/-- `main`: print the header, optionally run the updater (whose Boolean
result is discarded), then always run the installer. -/
def mainRun (update : Bool) (g : GitEnv) (fs : FS) (scriptDir home : FsPath) :
    List OutEvent × FS × Except Err Nat :=
  let hdr : List OutEvent :=
    [OutEvent.hdrRule,
     if update then OutEvent.titleUpdating else OutEvent.titleInstalling,
     OutEvent.hdrRule, OutEvent.blank]
  let updOut : List OutEvent := if update then (update_from_repo g).1 else []
  let r := install_files fs scriptDir home
  (hdr ++ updOut ++ r.1, r.2.1, r.2.2)

/-- The `__main__` block: run `main`, catch any exception once, print it
as an error, and exit 1; exit 0 otherwise.  The result is the console
events, the final filesystem, and the process exit code. -/
def runScript (update : Bool) (g : GitEnv) (fs : FS) (scriptDir home : FsPath) :
    List OutEvent × FS × Nat :=
  match mainRun update g fs scriptDir home with
  | (out, fs', Except.ok _) => (out, fs', 0)
  | (out, fs', Except.error e) => (out ++ [OutEvent.errorMsg (errMsg e)], fs', 1)

deriving instance DecidableEq for Except

/-! ## Concrete fixtures (used to evaluate the theorems on real inputs) -/

def fdDbapps : FileData := ⟨"dbapps command definition", 100, 420⟩

def fdDbtest : FileData := ⟨"dbtestrunner command definition", 101, 420⟩

def fdTemplate : FileData := ⟨"deploy template", 102, 420⟩

def scriptDirW : FsPath := ["repo"]

def homeW : FsPath := ["home", "user"]

/-- A source tree holding all three manifest files; the home directory
exists, the `.claude` tree does not. -/
def fsAll : FS :=
  { dirs := [["repo"], ["repo", "commands"], ["home"], ["home", "user"]],
    files := [(["repo", "commands", "dbapps.md"], fdDbapps),
              (["repo", "commands", "dbtestrunner.md"], fdDbtest),
              (["repo", "commands", "deploy_to_databricks_template.py"], fdTemplate)],
    unwritable := [] }

/-- Same, but the template file is missing from the source. -/
def fsTwo : FS :=
  { dirs := [["repo"], ["repo", "commands"], ["home"], ["home", "user"]],
    files := [(["repo", "commands", "dbapps.md"], fdDbapps),
              (["repo", "commands", "dbtestrunner.md"], fdDbtest)],
    unwritable := [] }

/-- The destination path is occupied by a regular file. -/
def fsOccupied : FS :=
  { dirs := [["repo"], ["repo", "commands"], ["home"], ["home", "user"],
             ["home", "user", ".claude"]],
    files := [(["repo", "commands", "dbapps.md"], fdDbapps),
              (["home", "user", ".claude", "commands"], fdTemplate)],
    unwritable := [] }

def gitOkEnv : GitEnv := ⟨true, ⟨0, "", ""⟩, ⟨0, "Already up to date.\n", ""⟩⟩

def gitPullFailEnv : GitEnv := ⟨true, ⟨0, "", ""⟩, ⟨1, "", "fatal: unable to access remote"⟩⟩

def gitNoRepoEnv : GitEnv := ⟨true, ⟨128, "", "fatal: not a git repository"⟩, ⟨0, "", ""⟩⟩

def gitAbsentEnv : GitEnv := ⟨false, ⟨0, "", ""⟩, ⟨0, "", ""⟩⟩

/-- A pull result whose "Already up to date" marker appears in stderr
only. -/
def pullStderrEnv : GitEnv := ⟨true, ⟨0, "", ""⟩, ⟨0, "", "Already up to date."⟩⟩

/-! ## Lemmas about the filesystem primitives -/

theorem lookupFile_setAssoc_self (l : List (FsPath × FileData)) (p : FsPath) (d : FileData) :
    lookupFile (setAssoc l p d) p = some d := by
  induction l with
  | nil => simp [setAssoc, lookupFile]
  | cons e rest ih =>
    by_cases h : e.1 = p
    · simp [setAssoc, lookupFile, h]
    · simp [setAssoc, lookupFile, h, ih]

theorem lookupFile_setAssoc_ne (l : List (FsPath × FileData)) (p q : FsPath) (d : FileData)
    (h : q ≠ p) : lookupFile (setAssoc l p d) q = lookupFile l q := by
  induction l with
  | nil => simp [setAssoc, lookupFile, Ne.symm h]
  | cons e rest ih =>
    by_cases he : e.1 = p
    · simp [setAssoc, lookupFile, he, h, Ne.symm h]
    · simp only [setAssoc, if_neg he, lookupFile]
      by_cases hq : e.1 = q <;> simp [hq, ih]

theorem setAssoc_lookup_eq (l : List (FsPath × FileData)) (p : FsPath) (d : FileData)
    (h : lookupFile l p = some d) : setAssoc l p d = l := by
  induction l with
  | nil => simp [lookupFile] at h
  | cons e rest ih =>
    by_cases he : e.1 = p
    · simp only [lookupFile, if_pos he] at h
      cases h
      cases e
      simp_all [setAssoc]
    · simp only [lookupFile, if_neg he] at h
      simp [setAssoc, he, ih h]

theorem getFile_setFile_self (fs : FS) (p : FsPath) (d : FileData) :
    (fs.setFile p d).getFile p = some d :=
  lookupFile_setAssoc_self fs.files p d

theorem getFile_setFile_ne (fs : FS) (p q : FsPath) (d : FileData) (h : q ≠ p) :
    (fs.setFile p d).getFile q = fs.getFile q :=
  lookupFile_setAssoc_ne fs.files p q d h

theorem setFile_eq_self (fs : FS) (p : FsPath) (d : FileData)
    (h : fs.getFile p = some d) : fs.setFile p d = fs := by
  cases fs
  simp only [FS.setFile]
  congr 1
  exact setAssoc_lookup_eq _ p d h

theorem dirs_setFile (fs : FS) (p : FsPath) (d : FileData) :
    (fs.setFile p d).dirs = fs.dirs := rfl

theorem unwritable_setFile (fs : FS) (p : FsPath) (d : FileData) :
    (fs.setFile p d).unwritable = fs.unwritable := rfl

theorem isDir_setFile (fs : FS) (p : FsPath) (d : FileData) (q : FsPath) :
    (fs.setFile p d).isDir q = fs.isDir q := rfl

theorem pathExists_congr (fs fs' : FS) (p : FsPath)
    (hd : fs'.isDir p = fs.isDir p) (hf : fs'.getFile p = fs.getFile p) :
    fs'.pathExists p = fs.pathExists p := by
  simp [FS.pathExists, FS.isFile, hd, hf]

theorem append_singleton_inj {a b : FsPath} {x y : String}
    (h : a ++ [x] = b ++ [y]) : a = b ∧ x = y := by
  have h2 := List.append_inj' h rfl
  exact ⟨h2.1, by simpa using h2.2⟩

/-- Characterization of a successful `copy2`. -/
theorem copy2_ok (fs : FS) (src dst : FsPath) (fs1 : FS)
    (h : fs.copy2 src dst = Except.ok fs1) :
    ∃ d, fs.getFile src = some d ∧ fs.isDir dst.dropLast = true ∧ fs1 = fs.setFile dst d := by
  unfold FS.copy2 at h
  split at h
  · simp at h
  · rename_i d hg
    split at h
    · rename_i hd
      cases h
      exact ⟨d, hg, hd, rfl⟩
    · simp at h

theorem copy2_error_of_src_none (fs : FS) (src dst : FsPath)
    (h : fs.getFile src = none) :
    fs.copy2 src dst = Except.error (Err.copyFailed src dst) := by
  simp [FS.copy2, h]

theorem copy2_error_of_no_dir (fs : FS) (src dst : FsPath)
    (h : fs.isDir dst.dropLast = false) :
    fs.copy2 src dst = Except.error (Err.copyFailed src dst) := by
  unfold FS.copy2
  cases fs.getFile src <;> simp [h]

theorem dropLast_append_singleton (l : FsPath) (a : String) :
    (l ++ [a]).dropLast = l := by
  simp

theorem map_congr_mem {α β : Type} (l : List α) (f g : α → β)
    (h : ∀ a ∈ l, f a = g a) : l.map f = l.map g := by
  induction l with
  | nil => rfl
  | cons a l ih =>
    simp only [List.map_cons, h a (List.mem_cons_self a l)]
    rw [ih fun b hb => h b (List.mem_cons_of_mem a hb)]

theorem filter_congr_mem {α : Type} (l : List α) (f g : α → Bool)
    (h : ∀ a ∈ l, f a = g a) : l.filter f = l.filter g := by
  induction l with
  | nil => rfl
  | cons a l ih =>
    simp only [List.filter_cons, h a (List.mem_cons_self a l)]
    rw [ih fun b hb => h b (List.mem_cons_of_mem a hb)]

theorem length_filter_not_sub {α : Type} (l : List α) (p : α → Bool) :
    (l.filter p).length = l.length - (l.filter (fun a => !(p a))).length := by
  induction l with
  | nil => simp
  | cons a l ih =>
    have hle := List.length_filter_le (fun a => !(p a)) l
    cases hpa : p a
    · simp [List.filter_cons, hpa, ih]
    · simp [List.filter_cons, hpa, ih]
      omega

/-! ## Lemmas about the copy loop -/

/-- The copy loop never touches directories or permissions, never writes
outside the destination paths of its file list, and never deletes a file. -/
theorem copyLoop_frame (srcDir dstDir : FsPath) :
    ∀ (names : List String) (fs : FS),
      (copyLoop srcDir dstDir fs names).2.1.dirs = fs.dirs ∧
      (copyLoop srcDir dstDir fs names).2.1.unwritable = fs.unwritable ∧
      (∀ p, (∀ n ∈ names, p ≠ dstDir ++ [n]) →
        (copyLoop srcDir dstDir fs names).2.1.getFile p = fs.getFile p) ∧
      (∀ p, (fs.getFile p).isSome = true →
        ((copyLoop srcDir dstDir fs names).2.1.getFile p).isSome = true) := by
  intro names
  induction names with
  | nil => exact fun fs => ⟨rfl, rfl, fun p _ => rfl, fun p h => h⟩
  | cons f rest ih =>
    intro fs
    by_cases hex : fs.pathExists (srcDir ++ [f]) = true
    · simp only [copyLoop, hex, if_true]
      cases hc : fs.copy2 (srcDir ++ [f]) (dstDir ++ [f]) with
      | error e => exact ⟨rfl, rfl, fun p _ => rfl, fun p h => h⟩
      | ok fs1 =>
        obtain ⟨d, hg, hd, rfl⟩ := copy2_ok fs _ _ fs1 hc
        obtain ⟨ihd, ihu, ihf, ihs⟩ := ih (fs.setFile (dstDir ++ [f]) d)
        refine ⟨by simpa using ihd, by simpa using ihu, ?_, ?_⟩
        · intro p hp
          have h1 := ihf p (fun n hn => hp n (List.mem_cons_of_mem f hn))
          have h2 : p ≠ dstDir ++ [f] := hp f (List.mem_cons_self f rest)
          simpa [getFile_setFile_ne _ _ _ _ h2] using h1
        · intro p hp
          apply ihs
          by_cases hpd : p = dstDir ++ [f]
          · subst hpd; simp [getFile_setFile_self]
          · simpa [getFile_setFile_ne _ _ _ _ hpd] using hp
    · simp only [copyLoop]
      rw [if_neg hex]
      obtain ⟨ihd, ihu, ihf, ihs⟩ := ih fs
      exact ⟨ihd, ihu,
        fun p hp => ihf p (fun n hn => hp n (List.mem_cons_of_mem f hn)), ihs⟩

/-- Every event the copy loop prints is a per-file success or warning line. -/
theorem copyLoop_events (srcDir dstDir : FsPath) :
    ∀ (names : List String) (fs : FS) (ev : OutEvent),
      ev ∈ (copyLoop srcDir dstDir fs names).1 →
      (∃ f, ev = OutEvent.installed f) ∨ (∃ f, ev = OutEvent.missingWarn f) := by
  intro names
  induction names with
  | nil => intro fs ev h; simp [copyLoop] at h
  | cons f rest ih =>
    intro fs ev h
    by_cases hex : fs.pathExists (srcDir ++ [f]) = true
    · simp only [copyLoop, hex, if_true] at h
      cases hc : fs.copy2 (srcDir ++ [f]) (dstDir ++ [f]) with
      | error e => rw [hc] at h; simp at h
      | ok fs1 =>
        rw [hc] at h
        simp only [List.mem_cons] at h
        rcases h with h | h
        · exact Or.inl ⟨f, h⟩
        · exact ih fs1 ev h
    · simp only [copyLoop] at h
      rw [if_neg hex] at h
      simp only [List.mem_cons] at h
      rcases h with h | h
      · exact Or.inr ⟨f, h⟩
      · exact ih fs ev h

/-- When the destination directory does not exist, the first copy of an
existing source file raises, leaving the filesystem unchanged. -/
theorem copyLoop_error_no_dir (srcDir dstDir : FsPath) :
    ∀ (names : List String) (fs : FS), fs.isDir dstDir = false →
      (∃ n ∈ names, fs.pathExists (srcDir ++ [n]) = true) →
      ∃ e, (copyLoop srcDir dstDir fs names).2 = (fs, Except.error e) := by
  intro names
  induction names with
  | nil => intro fs _ h; simp at h
  | cons f rest ih =>
    intro fs hdir hex
    by_cases hf : fs.pathExists (srcDir ++ [f]) = true
    · have hc : fs.copy2 (srcDir ++ [f]) (dstDir ++ [f]) =
          Except.error (Err.copyFailed (srcDir ++ [f]) (dstDir ++ [f])) := by
        apply copy2_error_of_no_dir
        rwa [dropLast_append_singleton]
      simp only [copyLoop, hf, if_true, hc]
      exact ⟨_, rfl⟩
    · simp only [copyLoop]
      rw [if_neg hf]
      obtain ⟨n, hn, hpe⟩ := hex
      rcases List.mem_cons.mp hn with h | h
      · subst h; exact absurd hpe hf
      · obtain ⟨e, he⟩ := ih fs hdir ⟨n, h, hpe⟩
        refine ⟨e, ?_⟩
        have h1 : (copyLoop srcDir dstDir fs rest).2.1 = fs := by rw [he]
        have h2 : (copyLoop srcDir dstDir fs rest).2.2 = Except.error e := by rw [he]
        simp [h1, h2]

theorem isDir_congr (fs fs' : FS) (h : fs'.dirs = fs.dirs) (p : FsPath) :
    fs'.isDir p = fs.isDir p := by
  simp [FS.isDir, h]

theorem pathExists_setFile_ne (fs : FS) (p q : FsPath) (d : FileData) (h : q ≠ p) :
    (fs.setFile p d).pathExists q = fs.pathExists q :=
  pathExists_congr fs (fs.setFile p d) q rfl (getFile_setFile_ne fs p q d h)

/-- Unfolding: head file present and its copy succeeds. -/
theorem copyLoop_cons_pos (srcDir dstDir : FsPath) (f : String) (rest : List String)
    (fs fs1 : FS) (hex : fs.pathExists (srcDir ++ [f]) = true)
    (hc : fs.copy2 (srcDir ++ [f]) (dstDir ++ [f]) = Except.ok fs1) :
    copyLoop srcDir dstDir fs (f :: rest) =
      (OutEvent.installed f :: (copyLoop srcDir dstDir fs1 rest).1,
       (copyLoop srcDir dstDir fs1 rest).2.1,
       (copyLoop srcDir dstDir fs1 rest).2.2.map (· + 1)) := by
  simp only [copyLoop]
  rw [if_pos hex, hc]

/-- Unfolding: head file present but its copy raises. -/
theorem copyLoop_cons_err (srcDir dstDir : FsPath) (f : String) (rest : List String)
    (fs : FS) (e : Err) (hex : fs.pathExists (srcDir ++ [f]) = true)
    (hc : fs.copy2 (srcDir ++ [f]) (dstDir ++ [f]) = Except.error e) :
    copyLoop srcDir dstDir fs (f :: rest) = ([], fs, Except.error e) := by
  simp only [copyLoop]
  rw [if_pos hex, hc]

/-- Unfolding: head file absent from the source. -/
theorem copyLoop_cons_neg (srcDir dstDir : FsPath) (f : String) (rest : List String)
    (fs : FS) (hex : fs.pathExists (srcDir ++ [f]) = false) :
    copyLoop srcDir dstDir fs (f :: rest) =
      (OutEvent.missingWarn f :: (copyLoop srcDir dstDir fs rest).1,
       (copyLoop srcDir dstDir fs rest).2.1,
       (copyLoop srcDir dstDir fs rest).2.2) := by
  simp only [copyLoop]
  rw [if_neg (by simp [hex])]

/-- Full specification of a copy loop run that completes without an
exception: the printed lines follow the list order, the count is the
number of entries present in the source, and each present entry's data
(content and metadata) ends up at its destination path. -/
theorem copyLoop_ok_spec (srcDir dstDir : FsPath) :
    ∀ (names : List String) (fs : FS) (k : Nat),
      (copyLoop srcDir dstDir fs names).2.2 = Except.ok k →
      names.Nodup →
      (copyLoop srcDir dstDir fs names).1 =
          names.map (fun n => if fs.pathExists (srcDir ++ [n]) then OutEvent.installed n
                              else OutEvent.missingWarn n) ∧
      k = (names.filter (fun n => fs.pathExists (srcDir ++ [n]))).length ∧
      (∀ n ∈ names, (copyLoop srcDir dstDir fs names).2.1.getFile (dstDir ++ [n]) =
        if fs.pathExists (srcDir ++ [n]) then fs.getFile (srcDir ++ [n])
        else fs.getFile (dstDir ++ [n])) := by
  intro names
  induction names with
  | nil =>
    intro fs k hk _
    simp [copyLoop] at hk
    subst hk
    simp [copyLoop]
  | cons f rest ih =>
    intro fs k hk hnd
    have hndr : rest.Nodup := (List.nodup_cons.mp hnd).2
    have hfmem : f ∉ rest := (List.nodup_cons.mp hnd).1
    by_cases hex : fs.pathExists (srcDir ++ [f]) = true
    · cases hc : fs.copy2 (srcDir ++ [f]) (dstDir ++ [f]) with
      | error e =>
        rw [copyLoop_cons_err srcDir dstDir f rest fs e hex hc] at hk
        simp at hk
      | ok fs1 =>
        obtain ⟨d, hg, hd, hfs1⟩ := copy2_ok fs _ _ fs1 hc
        rw [copyLoop_cons_pos srcDir dstDir f rest fs fs1 hex hc] at hk ⊢
        cases hr : (copyLoop srcDir dstDir fs1 rest).2.2 with
        | error e => rw [hr] at hk; simp [Except.map] at hk
        | ok k' =>
          rw [hr] at hk
          have hkk : k = k' + 1 := by
            have := hk
            simp [Except.map] at this
            omega
          obtain ⟨hout, hcnt, hget⟩ := ih fs1 k' hr hndr
          have hpe : ∀ n ∈ rest,
              fs1.pathExists (srcDir ++ [n]) = fs.pathExists (srcDir ++ [n]) := by
            intro n hn
            rw [hfs1]
            apply pathExists_setFile_ne
            intro he
            obtain ⟨hsd2, hnf⟩ := append_singleton_inj he
            exact hfmem (hnf ▸ hn)
          have hgf : ∀ n ∈ rest,
              fs1.getFile (srcDir ++ [n]) = fs.getFile (srcDir ++ [n]) := by
            intro n hn
            rw [hfs1]
            apply getFile_setFile_ne
            intro he
            obtain ⟨hsd2, hnf⟩ := append_singleton_inj he
            exact hfmem (hnf ▸ hn)
          have hgd : ∀ n ∈ rest,
              fs1.getFile (dstDir ++ [n]) = fs.getFile (dstDir ++ [n]) := by
            intro n hn
            rw [hfs1]
            apply getFile_setFile_ne
            intro he
            obtain ⟨hsd2, hnf⟩ := append_singleton_inj he
            exact hfmem (hnf ▸ hn)
          refine ⟨?_, ?_, ?_⟩
          · simp only [List.map_cons, hex, if_true, List.cons.injEq, true_and]
            rw [hout]
            exact map_congr_mem rest _ _ (fun n hn => by rw [hpe n hn])
          · rw [hkk, hcnt]
            have : rest.filter (fun n => fs1.pathExists (srcDir ++ [n])) =
                rest.filter (fun n => fs.pathExists (srcDir ++ [n])) :=
              filter_congr_mem rest _ _ (fun n hn => by rw [hpe n hn])
            rw [this]
            simp [List.filter_cons, hex]
          · intro n hn
            rcases List.mem_cons.mp hn with rfl | hnr
            · have hfr := (copyLoop_frame srcDir dstDir rest fs1).2.2.1
              have hne : ∀ m ∈ rest, dstDir ++ [n] ≠ dstDir ++ [m] := by
                intro m hm he
                obtain ⟨-, hnm⟩ := append_singleton_inj he
                exact hfmem (hnm ▸ hm)
              rw [hfr (dstDir ++ [n]) hne, hfs1, getFile_setFile_self]
              simp [hex, hg]
            · have := hget n hnr
              rw [hpe n hnr, hgf n hnr, hgd n hnr] at this
              exact this
    · have hexf : fs.pathExists (srcDir ++ [f]) = false := by
        simpa using hex
      rw [copyLoop_cons_neg srcDir dstDir f rest fs hexf] at hk ⊢
      obtain ⟨hout, hcnt, hget⟩ := ih fs k hk hndr
      refine ⟨?_, ?_, ?_⟩
      · simp only [List.map_cons, hexf, List.cons.injEq]
        exact ⟨by simp, hout⟩
      · rw [hcnt]
        simp [List.filter_cons, hexf]
      · intro n hn
        rcases List.mem_cons.mp hn with rfl | hnr
        · have hfr := (copyLoop_frame srcDir dstDir rest fs).2.2.1
          have hne : ∀ m ∈ rest, dstDir ++ [n] ≠ dstDir ++ [m] := by
            intro m hm he
            obtain ⟨-, hnm⟩ := append_singleton_inj he
            exact hfmem (hnm ▸ hm)
          rw [hfr (dstDir ++ [n]) hne, hexf]
          simp
        · exact hget n hnr

/-- Running the copy loop again from the state a successful run produced
(with source and destination directories distinct) prints the same lines,
returns the same count, and leaves the state unchanged. -/
theorem copyLoop_again (srcDir dstDir : FsPath) (hsd : srcDir ≠ dstDir) :
    ∀ (names : List String) (fs out fs' k),
      names.Nodup →
      copyLoop srcDir dstDir fs names = (out, fs', Except.ok k) →
      copyLoop srcDir dstDir fs' names = (out, fs', Except.ok k) := by
  intro names
  induction names with
  | nil =>
    intro fs out fs' k _ h
    simp only [copyLoop, Prod.mk.injEq] at h
    obtain ⟨h1, h2, h3⟩ := h
    subst h1; subst h2
    simp only [copyLoop, h3]
  | cons f rest ih =>
    intro fs out fs' k hnd h
    have hndr : rest.Nodup := (List.nodup_cons.mp hnd).2
    have hfmem : f ∉ rest := (List.nodup_cons.mp hnd).1
    have hsrcne : ∀ m : String, srcDir ++ [f] ≠ dstDir ++ [m] := by
      intro m he
      exact hsd (append_singleton_inj he).1
    by_cases hex : fs.pathExists (srcDir ++ [f]) = true
    · cases hc : fs.copy2 (srcDir ++ [f]) (dstDir ++ [f]) with
      | error e =>
        rw [copyLoop_cons_err srcDir dstDir f rest fs e hex hc] at h
        simp at h
      | ok fs1 =>
        obtain ⟨d, hg, hd, hfs1⟩ := copy2_ok fs _ _ fs1 hc
        rw [copyLoop_cons_pos srcDir dstDir f rest fs fs1 hex hc] at h
        simp only [Prod.mk.injEq] at h
        obtain ⟨h1, h2, h3⟩ := h
        subst h1; subst h2
        cases hr : (copyLoop srcDir dstDir fs1 rest).2.2 with
        | error e => rw [hr] at h3; simp [Except.map] at h3
        | ok k' =>
          rw [hr] at h3
          have hkk : k = k' + 1 := by
            simp [Except.map] at h3
            omega
          have hrun : copyLoop srcDir dstDir fs1 rest =
              ((copyLoop srcDir dstDir fs1 rest).1,
               (copyLoop srcDir dstDir fs1 rest).2.1, Except.ok k') := by
            rw [← hr]
          have hrun2 := ih fs1 (copyLoop srcDir dstDir fs1 rest).1
            (copyLoop srcDir dstDir fs1 rest).2.1 k' hndr hrun
          obtain ⟨hdirs, hunw, hgfile, -⟩ := copyLoop_frame srcDir dstDir rest fs1
          -- the final state still has the source file with the same data
          have hgsrc : (copyLoop srcDir dstDir fs1 rest).2.1.getFile (srcDir ++ [f]) = some d := by
            rw [hgfile (srcDir ++ [f]) (fun m _ => hsrcne m), hfs1]
            rw [getFile_setFile_ne fs _ _ d (hsrcne f), hg]
          -- and the destination file as just written
          have hgdst : (copyLoop srcDir dstDir fs1 rest).2.1.getFile (dstDir ++ [f]) = some d := by
            have hne : ∀ m ∈ rest, dstDir ++ [f] ≠ dstDir ++ [m] := by
              intro m hm he
              obtain ⟨-, hnm⟩ := append_singleton_inj he
              exact hfmem (hnm ▸ hm)
            rw [hgfile (dstDir ++ [f]) hne, hfs1, getFile_setFile_self]
          have hex' : (copyLoop srcDir dstDir fs1 rest).2.1.pathExists (srcDir ++ [f]) = true := by
            simp [FS.pathExists, FS.isFile, hgsrc]
          have hdirsc : (copyLoop srcDir dstDir fs1 rest).2.1.isDir
              ((dstDir ++ [f]).dropLast) = true := by
            rw [isDir_congr fs1 _ hdirs, hfs1]
            rw [isDir_setFile]
            exact hd
          have hc' : (copyLoop srcDir dstDir fs1 rest).2.1.copy2
              (srcDir ++ [f]) (dstDir ++ [f]) =
              Except.ok (copyLoop srcDir dstDir fs1 rest).2.1 := by
            unfold FS.copy2
            rw [hgsrc]
            dsimp only
            rw [if_pos hdirsc]
            rw [setFile_eq_self _ _ _ hgdst]
          rw [copyLoop_cons_pos srcDir dstDir f rest _ _ hex' hc', hrun2]
          simp [Except.map, hkk]
    · have hexf : fs.pathExists (srcDir ++ [f]) = false := by simpa using hex
      rw [copyLoop_cons_neg srcDir dstDir f rest fs hexf] at h
      simp only [Prod.mk.injEq] at h
      obtain ⟨h1, h2, h3⟩ := h
      subst h1; subst h2
      have hrun : copyLoop srcDir dstDir fs rest =
          ((copyLoop srcDir dstDir fs rest).1,
           (copyLoop srcDir dstDir fs rest).2.1, Except.ok k) := by
        rw [← h3]
      have hrun2 := ih fs (copyLoop srcDir dstDir fs rest).1
        (copyLoop srcDir dstDir fs rest).2.1 k hndr hrun
      obtain ⟨hdirs, hunw, hgfile, -⟩ := copyLoop_frame srcDir dstDir rest fs
      have hex' : (copyLoop srcDir dstDir fs rest).2.1.pathExists (srcDir ++ [f]) = false := by
        rw [pathExists_congr fs _ _ (isDir_congr fs _ hdirs _)
          (hgfile (srcDir ++ [f]) (fun m _ => hsrcne m))]
        exact hexf
      rw [copyLoop_cons_neg srcDir dstDir f rest _ hex', hrun2]

/-! ## Lemmas about directory creation -/

/-- `mkdirRec` never touches files or permissions. -/
theorem mkdirRec_files :
    ∀ (segs : List String) (fs : FS) (cur : FsPath),
      (fs.mkdirRec cur segs).1.files = fs.files ∧
      (fs.mkdirRec cur segs).1.unwritable = fs.unwritable := by
  intro segs
  induction segs with
  | nil => exact fun fs cur => ⟨rfl, rfl⟩
  | cons s rest ih =>
    intro fs cur
    simp only [FS.mkdirRec]
    split_ifs with h1 h2 h3
    · exact ih fs (cur ++ [s])
    · exact ⟨rfl, rfl⟩
    · exact ⟨rfl, rfl⟩
    · exact ih _ (cur ++ [s])

/-- `mkdirRec` never removes a directory. -/
theorem mkdirRec_mono :
    ∀ (segs : List String) (fs : FS) (cur p : FsPath),
      fs.isDir p = true → (fs.mkdirRec cur segs).1.isDir p = true := by
  intro segs
  induction segs with
  | nil => exact fun fs cur p h => h
  | cons s rest ih =>
    intro fs cur p h
    simp only [FS.mkdirRec]
    split_ifs with h1 h2 h3
    · exact ih fs (cur ++ [s]) p h
    · exact h
    · exact h
    · apply ih _ (cur ++ [s]) p
      have hm : p ∈ fs.dirs := by simpa [FS.isDir] using h
      simp [FS.isDir, List.contains_cons, hm]

/-- Every directory `mkdirRec` adds lies on the path it was asked to
create. -/
theorem mkdirRec_new_dirs :
    ∀ (segs : List String) (fs : FS) (cur p : FsPath),
      (fs.mkdirRec cur segs).1.isDir p = true →
      fs.isDir p = true ∨ ∃ t, p ++ t = cur ++ segs := by
  intro segs
  induction segs with
  | nil => exact fun fs cur p h => Or.inl h
  | cons s rest ih =>
    intro fs cur p h
    simp only [FS.mkdirRec] at h
    split_ifs at h with h1 h2 h3
    · rcases ih fs (cur ++ [s]) p h with hl | ⟨t, ht⟩
      · exact Or.inl hl
      · exact Or.inr ⟨t, by rw [ht]; simp⟩
    · exact Or.inl h
    · exact Or.inl h
    · rcases ih _ (cur ++ [s]) p h with hl | ⟨t, ht⟩
      · simp only [FS.isDir, List.contains_cons] at hl
        rcases Bool.or_eq_true_iff.mp hl with he | hm
        · refine Or.inr ⟨rest, ?_⟩
          have : p = cur ++ [s] := by simpa using he
          rw [this]; simp
        · exact Or.inl hm
      · exact Or.inr ⟨t, by rw [ht]; simp⟩

/-- On success, the requested directory exists afterwards. -/
theorem mkdirRec_target :
    ∀ (segs : List String) (fs : FS) (cur : FsPath),
      (fs.isDir cur = true ∨ segs ≠ []) →
      (fs.mkdirRec cur segs).2 = none →
      (fs.mkdirRec cur segs).1.isDir (cur ++ segs) = true := by
  intro segs
  induction segs with
  | nil =>
    intro fs cur hcur _
    rcases hcur with h | h
    · simpa using h
    · exact absurd rfl h
  | cons s rest ih =>
    intro fs cur hcur hnone
    simp only [FS.mkdirRec] at hnone ⊢
    split_ifs at hnone ⊢ with h1 h2 h3
    · have := ih fs (cur ++ [s]) (Or.inl h1) hnone
      simpa using this
    · have hnew : ({ fs with dirs := (cur ++ [s]) :: fs.dirs } : FS).isDir (cur ++ [s]) = true := by
        simp [FS.isDir, List.contains_cons]
      have := ih _ (cur ++ [s]) (Or.inl hnew) hnone
      simpa using this

/-- On success, every nonempty initial segment of the requested path is a
directory afterwards (the "missing parents" of `parents=True`). -/
theorem mkdirRec_ancestors :
    ∀ (segs : List String) (fs : FS) (cur : FsPath),
      (fs.mkdirRec cur segs).2 = none →
      ∀ t1 t2 : List String, segs = t1 ++ t2 → t1 ≠ [] →
        (fs.mkdirRec cur segs).1.isDir (cur ++ t1) = true := by
  intro segs
  induction segs with
  | nil =>
    intro fs cur _ t1 t2 hsplit ht1
    exact absurd (List.append_eq_nil.mp hsplit.symm).1 ht1
  | cons s rest ih =>
    intro fs cur hnone t1 t2 hsplit ht1
    cases t1 with
    | nil => exact absurd rfl ht1
    | cons s' t1' =>
      have hs : s' = s ∧ rest = t1' ++ t2 := by
        have := hsplit
        simp only [List.cons_append, List.cons.injEq] at this
        exact ⟨this.1.symm, this.2⟩
      obtain ⟨hseq, hrest⟩ := hs
      rw [hseq]
      simp only [FS.mkdirRec] at hnone ⊢
      split_ifs at hnone ⊢ with h1 h2 h3
      · cases t1' with
        | nil =>
          have := mkdirRec_mono rest fs (cur ++ [s]) (cur ++ [s]) h1
          simpa using this
        | cons a t1'' =>
          have := ih fs (cur ++ [s]) hnone (a :: t1'') t2 hrest (by simp)
          simpa using this
      · have hnew : ({ fs with dirs := (cur ++ [s]) :: fs.dirs } : FS).isDir (cur ++ [s]) = true := by
          simp [FS.isDir, List.contains_cons]
        cases t1' with
        | nil =>
          have := mkdirRec_mono rest _ (cur ++ [s]) (cur ++ [s]) hnew
          simpa using this
        | cons a t1'' =>
          have := ih _ (cur ++ [s]) hnone (a :: t1'') t2 hrest (by simp)
          simpa using this

/-! ## Unfolding lemmas for `install_files` -/

theorem install_files_ok_of_exists (fs : FS) (scriptDir home : FsPath)
    (outL : List OutEvent) (fs2 : FS) (k : Nat)
    (hex : fs.pathExists (commandsDst home) = true)
    (hcl : copyLoop (commandsSrc scriptDir) (commandsDst home) fs files_to_copy =
      (outL, fs2, Except.ok k)) :
    install_files fs scriptDir home =
      (OutEvent.copying :: (outL ++ summaryEvents (commandsDst home) k), fs2, Except.ok k) := by
  simp only [install_files]
  rw [if_pos hex]
  dsimp only
  rw [hcl]
  simp

theorem install_files_err_of_exists (fs : FS) (scriptDir home : FsPath)
    (outL : List OutEvent) (fs2 : FS) (e : Err)
    (hex : fs.pathExists (commandsDst home) = true)
    (hcl : copyLoop (commandsSrc scriptDir) (commandsDst home) fs files_to_copy =
      (outL, fs2, Except.error e)) :
    install_files fs scriptDir home = (OutEvent.copying :: outL, fs2, Except.error e) := by
  simp only [install_files]
  rw [if_pos hex]
  dsimp only
  rw [hcl]
  simp

theorem install_files_absent_mkdir_err (fs fs1 : FS) (scriptDir home : FsPath) (e : Err)
    (hex : fs.pathExists (commandsDst home) = false)
    (hmk : fs.mkdirParents (commandsDst home) = (fs1, some e)) :
    install_files fs scriptDir home =
      ([OutEvent.creating (commandsDst home)], fs1, Except.error e) := by
  simp only [install_files]
  rw [if_neg (by simp [hex]), hmk]

theorem install_files_ok_of_absent (fs fs1 : FS) (scriptDir home : FsPath)
    (outL : List OutEvent) (fs2 : FS) (k : Nat)
    (hex : fs.pathExists (commandsDst home) = false)
    (hmk : fs.mkdirParents (commandsDst home) = (fs1, none))
    (hcl : copyLoop (commandsSrc scriptDir) (commandsDst home) fs1 files_to_copy =
      (outL, fs2, Except.ok k)) :
    install_files fs scriptDir home =
      (OutEvent.creating (commandsDst home) :: OutEvent.copying ::
        (outL ++ summaryEvents (commandsDst home) k), fs2, Except.ok k) := by
  simp only [install_files]
  rw [if_neg (by simp [hex]), hmk]
  dsimp only
  rw [hcl]
  simp

theorem install_files_err_of_absent (fs fs1 : FS) (scriptDir home : FsPath)
    (outL : List OutEvent) (fs2 : FS) (e : Err)
    (hex : fs.pathExists (commandsDst home) = false)
    (hmk : fs.mkdirParents (commandsDst home) = (fs1, none))
    (hcl : copyLoop (commandsSrc scriptDir) (commandsDst home) fs1 files_to_copy =
      (outL, fs2, Except.error e)) :
    install_files fs scriptDir home =
      (OutEvent.creating (commandsDst home) :: OutEvent.copying :: outL, fs2, Except.error e) := by
  simp only [install_files]
  rw [if_neg (by simp [hex]), hmk]
  dsimp only
  rw [hcl]
  simp

/-- Inversion of a successful `install_files` run. -/
theorem install_files_ok_inv (fs : FS) (scriptDir home : FsPath)
    (out : List OutEvent) (fs' : FS) (n : Nat)
    (h : install_files fs scriptDir home = (out, fs', Except.ok n)) :
    ∃ out1 fs1 outL,
      ((fs.pathExists (commandsDst home) = true ∧ out1 = [] ∧ fs1 = fs) ∨
       (fs.pathExists (commandsDst home) = false ∧
         out1 = [OutEvent.creating (commandsDst home)] ∧
         fs.mkdirParents (commandsDst home) = (fs1, none))) ∧
      copyLoop (commandsSrc scriptDir) (commandsDst home) fs1 files_to_copy =
        (outL, fs', Except.ok n) ∧
      out = out1 ++ OutEvent.copying :: (outL ++ summaryEvents (commandsDst home) n) := by
  by_cases hex : fs.pathExists (commandsDst home) = true
  · rcases hcl : copyLoop (commandsSrc scriptDir) (commandsDst home) fs files_to_copy
      with ⟨outL, fs2, r⟩
    cases r with
    | ok k =>
      rw [install_files_ok_of_exists fs scriptDir home outL fs2 k hex hcl] at h
      simp only [Prod.mk.injEq] at h
      obtain ⟨h1, h2, h3⟩ := h
      have hkn : k = n := by simpa using h3
      subst hkn
      rw [h2] at hcl
      exact ⟨[], fs, outL, Or.inl ⟨hex, rfl, rfl⟩, hcl, h1.symm⟩
    | error e =>
      rw [install_files_err_of_exists fs scriptDir home outL fs2 e hex hcl] at h
      simp at h
  · have hexf : fs.pathExists (commandsDst home) = false := by simpa using hex
    rcases hmk : fs.mkdirParents (commandsDst home) with ⟨fs1, oe⟩
    cases oe with
    | some e =>
      rw [install_files_absent_mkdir_err fs fs1 scriptDir home e hexf hmk] at h
      simp at h
    | none =>
      rcases hcl : copyLoop (commandsSrc scriptDir) (commandsDst home) fs1 files_to_copy
        with ⟨outL, fs2, r⟩
      cases r with
      | ok k =>
        rw [install_files_ok_of_absent fs fs1 scriptDir home outL fs2 k hexf hmk hcl] at h
        simp only [Prod.mk.injEq] at h
        obtain ⟨h1, h2, h3⟩ := h
        have hkn : k = n := by simpa using h3
        subst hkn
        rw [h2] at hcl
        exact ⟨[OutEvent.creating (commandsDst home)], fs1, outL,
          Or.inr ⟨hexf, rfl, rfl⟩, hcl, h1.symm⟩
      | error e =>
        rw [install_files_err_of_absent fs fs1 scriptDir home outL fs2 e hexf hmk hcl] at h
        simp at h

/-! ## Runner-level helper lemmas -/

/-- `main` output decomposition: header, then optional updater output,
then the installer's output; state and result come from the installer. -/
theorem mainRun_eq (update : Bool) (g : GitEnv) (fs : FS) (scriptDir home : FsPath) :
    mainRun update g fs scriptDir home =
      ([OutEvent.hdrRule,
        if update then OutEvent.titleUpdating else OutEvent.titleInstalling,
        OutEvent.hdrRule, OutEvent.blank] ++
       (if update then (update_from_repo g).1 else []) ++
       (install_files fs scriptDir home).1,
       (install_files fs scriptDir home).2.1,
       (install_files fs scriptDir home).2.2) := rfl

theorem runScript_of_ok (u : Bool) (g : GitEnv) (fs : FS) (sd hm : FsPath) (n : Nat)
    (hok : (install_files fs sd hm).2.2 = Except.ok n) :
    runScript u g fs sd hm =
      ((mainRun u g fs sd hm).1, (install_files fs sd hm).2.1, 0) := by
  simp only [runScript, mainRun]
  rw [hok]

theorem runScript_of_err (u : Bool) (g : GitEnv) (fs : FS) (sd hm : FsPath) (e : Err)
    (herr : (install_files fs sd hm).2.2 = Except.error e) :
    runScript u g fs sd hm =
      ((mainRun u g fs sd hm).1 ++ [OutEvent.errorMsg (errMsg e)],
       (install_files fs sd hm).2.1, 1) := by
  simp only [runScript, mainRun]
  rw [herr]

theorem getLast_append_singleton {α : Type} (l : List α) (a : α) :
    (l ++ [a]).getLast? = some a := by
  simp

theorem ne_append_singleton (p : FsPath) (x : String) : p ≠ p ++ [x] := by
  intro h
  have := congrArg List.length h
  simp at this

/-- No "Creating" line is ever printed by the updater. -/
theorem update_no_creating (g : GitEnv) (q : FsPath) :
    OutEvent.creating q ∉ (update_from_repo g).1 := by
  unfold update_from_repo
  split_ifs <;> simp

/-- `mkdirParents` never touches the files. -/
theorem mkdirParents_getFile (fs fs1 : FS) (target : FsPath) (oe : Option Err)
    (hmk : fs.mkdirParents target = (fs1, oe)) (p : FsPath) :
    fs1.getFile p = fs.getFile p := by
  have h := (mkdirRec_files target fs []).1
  rw [show (fs.mkdirRec [] target).1 = fs1 by rw [← FS.mkdirParents, hmk]] at h
  simp [FS.getFile, h]

theorem mkdirParents_mono (fs fs1 : FS) (target : FsPath) (oe : Option Err)
    (hmk : fs.mkdirParents target = (fs1, oe)) (p : FsPath)
    (h : fs.isDir p = true) : fs1.isDir p = true := by
  have hm := mkdirRec_mono target fs [] p h
  rwa [show (fs.mkdirRec [] target).1 = fs1 by rw [← FS.mkdirParents, hmk]] at hm

/-- Away from the created path, `mkdirParents` changes no directory. -/
theorem mkdirParents_isDir_off_path (fs fs1 : FS) (target q : FsPath) (oe : Option Err)
    (hmk : fs.mkdirParents target = (fs1, oe))
    (hq : ∀ t, q ++ t ≠ target) :
    fs1.isDir q = fs.isDir q := by
  cases hfs : fs.isDir q with
  | true => rw [mkdirParents_mono fs fs1 target oe hmk q hfs]
  | false =>
    cases hfs1 : fs1.isDir q with
    | false => rfl
    | true =>
      have := mkdirRec_new_dirs target fs [] q
        (by rwa [show (fs.mkdirRec [] target).1 = fs1 by rw [← FS.mkdirParents, hmk]])
      rcases this with hl | ⟨t, ht⟩
      · rw [hl] at hfs; cases hfs
      · exact absurd (by simpa using ht) (hq t)

/-- Away from the created path, `mkdirParents` changes no existence fact. -/
theorem mkdirParents_pathExists_off_path (fs fs1 : FS) (target q : FsPath) (oe : Option Err)
    (hmk : fs.mkdirParents target = (fs1, oe))
    (hq : ∀ t, q ++ t ≠ target) :
    fs1.pathExists q = fs.pathExists q :=
  pathExists_congr fs fs1 q (mkdirParents_isDir_off_path fs fs1 target q oe hmk hq)
    (mkdirParents_getFile fs fs1 target oe hmk q)

theorem mkdirParents_pathExists_mono (fs fs1 : FS) (target : FsPath) (oe : Option Err)
    (hmk : fs.mkdirParents target = (fs1, oe)) (p : FsPath)
    (h : fs.pathExists p = true) : fs1.pathExists p = true := by
  simp only [FS.pathExists, Bool.or_eq_true] at h ⊢
  rcases h with h | h
  · exact Or.inl (mkdirParents_mono fs fs1 target oe hmk p h)
  · refine Or.inr ?_
    simpa [FS.isFile, mkdirParents_getFile fs fs1 target oe hmk p] using h

/-! ## Claim theorems -/

/-- Claim C3: the process exits with status 0 on normal completion —
whatever the updater did and however many manifest files were missing —
and exits with status 1 exactly when an exception propagates out of the
installer to the top level, where it is caught once and printed as an
error naming the exception. -/
theorem C3_exit_status (u : Bool) (g g' : GitEnv) (fs : FS) (scriptDir home : FsPath) :
    ((runScript u g fs scriptDir home).2.2 = 1 ↔
      ∃ e, (install_files fs scriptDir home).2.2 = Except.error e) ∧
    ((runScript u g fs scriptDir home).2.2 = 0 ↔
      ∃ n, (install_files fs scriptDir home).2.2 = Except.ok n) ∧
    (runScript u g fs scriptDir home).2.2 = (runScript u g' fs scriptDir home).2.2 ∧
    (∀ e, (install_files fs scriptDir home).2.2 = Except.error e →
      (runScript u g fs scriptDir home).1.getLast? = some (OutEvent.errorMsg (errMsg e))) := by
  cases hres : (install_files fs scriptDir home).2.2 with
  | ok n =>
    rw [runScript_of_ok u g fs scriptDir home n hres,
        runScript_of_ok u g' fs scriptDir home n hres]
    refine ⟨by simp [hres], by simp [hres], rfl, ?_⟩
    intro e he
    exact absurd he (by simp)
  | error e =>
    rw [runScript_of_err u g fs scriptDir home e hres,
        runScript_of_err u g' fs scriptDir home e hres]
    refine ⟨by simp [hres], by simp [hres], rfl, ?_⟩
    intro e' he'
    have he2 : e = e' := by simpa using he'
    subst he2
    exact getLast_append_singleton _ _

/-- Claim C3 witness: a run with a missing manifest file and a failing
update still exits 0. -/
theorem C3_exit_status_witness :
    (runScript true gitPullFailEnv fsTwo scriptDirW homeW).2.2 = 0 :=
  (C3_exit_status true gitPullFailEnv gitOkEnv fsTwo scriptDirW homeW).2.1.mpr
    ⟨2, by decide⟩

/-- Claim C4: every failure path of the repository updater (git missing,
not a checkout — with a warning naming the clone URL — and a failed pull)
is caught and reported as printed warnings with a `false` result; the
caller's output always contains the installer's output, and the
installation state and result cannot depend on the git environment. -/
theorem C4_updater_boundary (u : Bool) (g g' : GitEnv) (fs : FS) (scriptDir home : FsPath) :
    ((mainRun u g fs scriptDir home).1 =
      [OutEvent.hdrRule, if u then OutEvent.titleUpdating else OutEvent.titleInstalling,
       OutEvent.hdrRule, OutEvent.blank] ++
      (if u then (update_from_repo g).1 else []) ++ (install_files fs scriptDir home).1) ∧
    (mainRun u g fs scriptDir home).2 = (mainRun u g' fs scriptDir home).2 ∧
    (g.gitFound = false →
      (update_from_repo g).2 = false ∧
      OutEvent.gitMissing ∈ (update_from_repo g).1) ∧
    (g.gitFound = true → g.revParse.returncode ≠ 0 →
      (update_from_repo g).2 = false ∧
      OutEvent.notRepoWarn ∈ (update_from_repo g).1 ∧
      OutEvent.cloneCmd ∈ (update_from_repo g).1 ∧
      containsSubstr (eventText OutEvent.cloneCmd)
        "https://github.com/honnuanand/claude-dbapps-command.git" = true) ∧
    (g.gitFound = true → g.revParse.returncode = 0 → g.pull.returncode ≠ 0 →
      (update_from_repo g).2 = false ∧
      OutEvent.updFailed g.pull.stderr ∈ (update_from_repo g).1) := by
  refine ⟨rfl, rfl, ?_, ?_, ?_⟩
  · intro hg
    unfold update_from_repo
    rw [if_pos hg]
    simp
  · intro hg hrev
    unfold update_from_repo
    rw [if_neg (by simp [hg]), if_pos hrev]
    refine ⟨rfl, by simp, by simp, by decide⟩
  · intro hg hrev hpull
    unfold update_from_repo
    rw [if_neg (by simp [hg]), if_neg (by simp [hrev]), if_neg hpull]
    simp

/-- Claim C4 witness: with the update flag outside a git checkout, the
pipeline still runs the installer and warns with the clone URL. -/
theorem C4_updater_boundary_witness :
    (update_from_repo gitNoRepoEnv).2 = false ∧
    OutEvent.cloneCmd ∈ (update_from_repo gitNoRepoEnv).1 := by
  have h := (C4_updater_boundary true gitNoRepoEnv gitOkEnv fsAll scriptDirW
    homeW).2.2.2.1 rfl (by decide)
  exact ⟨h.1, h.2.2.1⟩

/-- Claim C5, counterexample: a pull that exits zero whose combined
standard output/error text contains the "Already up to date" marker (in
stderr), yet the updater does not print the "already current" line —
line 62 inspects stdout only. -/
theorem C5_marker_counterexample :
    pullStderrEnv.pull.returncode = 0 ∧
    containsSubstr (pullStderrEnv.pull.stdout ++ pullStderrEnv.pull.stderr)
      "Already up to date" = true ∧
    OutEvent.updAlready ∉ (update_from_repo pullStderrEnv).1 ∧
    (update_from_repo pullStderrEnv).2 = true := by
  refine ⟨rfl, by decide, by decide, rfl⟩

/-- Claim C5 (amended: the marker is sought in standard output only):
zero exit with the marker in stdout additionally reports "already
current"; zero exit without it reports only the success line; non-zero
exit reports failure with the captured stderr text and returns a failed
status. -/
theorem C5_pull_reporting (g : GitEnv)
    (hg : g.gitFound = true) (hrev : g.revParse.returncode = 0) :
    (g.pull.returncode = 0 → containsSubstr g.pull.stdout "Already up to date" = true →
      OutEvent.updAlready ∈ (update_from_repo g).1 ∧
      OutEvent.updOk ∈ (update_from_repo g).1 ∧ (update_from_repo g).2 = true) ∧
    (g.pull.returncode = 0 → containsSubstr g.pull.stdout "Already up to date" = false →
      OutEvent.updOk ∈ (update_from_repo g).1 ∧
      OutEvent.updAlready ∉ (update_from_repo g).1 ∧ (update_from_repo g).2 = true) ∧
    (g.pull.returncode ≠ 0 →
      OutEvent.updFailed g.pull.stderr ∈ (update_from_repo g).1 ∧
      (update_from_repo g).2 = false) := by
  refine ⟨?_, ?_, ?_⟩
  · intro hpull hmark
    unfold update_from_repo
    rw [if_neg (by simp [hg]), if_neg (by simp [hrev]), if_pos hpull, if_pos hmark]
    simp
  · intro hpull hmark
    unfold update_from_repo
    rw [if_neg (by simp [hg]), if_neg (by simp [hrev]), if_pos hpull,
        if_neg (by simp [hmark])]
    simp
  · intro hpull
    unfold update_from_repo
    rw [if_neg (by simp [hg]), if_neg (by simp [hrev]), if_neg hpull]
    simp

/-- Claim C5 witness: a failing pull reports the captured stderr text and
a failed status. -/
theorem C5_pull_reporting_witness :
    OutEvent.updFailed "fatal: unable to access remote" ∈
      (update_from_repo gitPullFailEnv).1 ∧
    (update_from_repo gitPullFailEnv).2 = false :=
  (C5_pull_reporting gitPullFailEnv rfl rfl).2.2 (by decide)

/-- Claim C9: a single probe of the environment (the platform and the
`TERM` variable) decides color support, and that one decision applies
uniformly to every line the program prints through `print_colored`;
lines printed with the plain `print` are never wrapped. -/
theorem C9_color_uniform (env : ConsoleEnv) (u : Bool) (g : GitEnv) (fs : FS)
    (scriptDir home : FsPath) :
    (∀ ev ∈ (runScript u g fs scriptDir home).1, ∀ c, eventColor ev = some c →
      renderEvent env ev =
        if supportsColor env then colorStr c ++ eventText ev ++ NC else eventText ev) ∧
    (∀ ev ∈ (runScript u g fs scriptDir home).1, eventColor ev = none →
      renderEvent env ev = eventText ev) := by
  constructor
  · intro ev _ c hc
    simp [renderEvent, print_colored, hc]
  · intro ev _ hc
    simp [renderEvent, hc]

/-- Claim C9 witness: on a concrete run, a `print_colored` line is
wrapped in its color code exactly when the environment supports color. -/
theorem C9_color_uniform_witness :
    renderEvent ⟨"linux", none⟩ OutEvent.copying =
      colorStr Color.blue ++ eventText OutEvent.copying ++ NC := by
  have h := (C9_color_uniform ⟨"linux", none⟩ false gitOkEnv fsAll scriptDirW homeW).1
    OutEvent.copying (by decide) Color.blue rfl
  simpa [supportsColor] using h

/-- Claim C7: after processing all manifest entries, a run that completes
prints the completion banner, the usage summary, the full destination
path of every manifest entry (copied or not), and the final success
count. -/
theorem C7_completion_summary (fs : FS) (scriptDir home : FsPath)
    (out : List OutEvent) (fs' : FS) (n : Nat)
    (hok : install_files fs scriptDir home = (out, fs', Except.ok n)) :
    (∃ pre, out = pre ++ summaryEvents (commandsDst home) n) ∧
    OutEvent.doneMsg ∈ out ∧ OutEvent.doneRule ∈ out ∧
    OutEvent.usageHdr ∈ out ∧ OutEvent.cmdsHdr ∈ out ∧
    (∀ f ∈ files_to_copy, OutEvent.installedPath (commandsDst home ++ [f]) ∈ out) ∧
    OutEvent.successSummary n ∈ out := by
  obtain ⟨out1, fs1, outL, hbr, hcl, hout⟩ :=
    install_files_ok_inv fs scriptDir home out fs' n hok
  have hpre : out = (out1 ++ OutEvent.copying :: outL) ++ summaryEvents (commandsDst home) n := by
    rw [hout]
    simp
  have hmem : ∀ ev ∈ summaryEvents (commandsDst home) n, ev ∈ out := by
    intro ev hev
    rw [hpre]
    exact List.mem_append_right _ hev
  refine ⟨⟨out1 ++ OutEvent.copying :: outL, hpre⟩, ?_, ?_, ?_, ?_, ?_, ?_⟩
  · exact hmem _ (by simp [summaryEvents])
  · exact hmem _ (by simp [summaryEvents])
  · exact hmem _ (by simp [summaryEvents])
  · exact hmem _ (by simp [summaryEvents])
  · intro f hf
    exact hmem _ (List.mem_append_left _
      (List.mem_append_right _ (List.mem_map_of_mem _ hf)))
  · exact hmem _ (by simp [summaryEvents])

/-- Claim C7 witness: on a run that copies only two of the three files,
the path of the third still appears, together with banner and count. -/
theorem C7_completion_summary_witness :
    OutEvent.installedPath
        ["home", "user", ".claude", "commands", "deploy_to_databricks_template.py"] ∈
      (install_files fsTwo scriptDirW homeW).1 ∧
    OutEvent.doneMsg ∈ (install_files fsTwo scriptDirW homeW).1 ∧
    OutEvent.successSummary 2 ∈ (install_files fsTwo scriptDirW homeW).1 := by
  have h := C7_completion_summary fsTwo scriptDirW homeW
    (install_files fsTwo scriptDirW homeW).1
    (install_files fsTwo scriptDirW homeW).2.1 2 (by decide)
  exact ⟨h.2.2.2.2.2.1 "deploy_to_databricks_template.py" (by decide), h.2.1, h.2.2.2.2.2.2⟩

/-- Claim C8: the installer deletes nothing: the three-entry manifest is
the only set of destination files it may write, directories only grow and
only along the destination path, and no existing file or directory
disappears. -/
theorem C8_frame_effect (fs : FS) (scriptDir home : FsPath) :
    files_to_copy.length = 3 ∧
    (∀ p, fs.isDir p = true → ((install_files fs scriptDir home).2.1).isDir p = true) ∧
    (∀ p, ((install_files fs scriptDir home).2.1).isDir p = true →
      fs.isDir p = true ∨ ∃ t, p ++ t = commandsDst home) ∧
    (∀ p, (∀ f ∈ files_to_copy, p ≠ commandsDst home ++ [f]) →
      ((install_files fs scriptDir home).2.1).getFile p = fs.getFile p) ∧
    (∀ p, (fs.getFile p).isSome = true →
      (((install_files fs scriptDir home).2.1).getFile p).isSome = true) := by
  refine ⟨rfl, ?_⟩
  by_cases hex : fs.pathExists (commandsDst home) = true
  · rcases hcl : copyLoop (commandsSrc scriptDir) (commandsDst home) fs files_to_copy
      with ⟨outL, fs2, r⟩
    have hfs2 : (copyLoop (commandsSrc scriptDir) (commandsDst home) fs files_to_copy).2.1
        = fs2 := by rw [hcl]
    obtain ⟨hdirs, hunw, hgfile, hsome⟩ :=
      copyLoop_frame (commandsSrc scriptDir) (commandsDst home) files_to_copy fs
    rw [hfs2] at hdirs hgfile hsome
    have hstate : (install_files fs scriptDir home).2.1 = fs2 := by
      cases r with
      | ok k => rw [install_files_ok_of_exists fs scriptDir home outL fs2 k hex hcl]
      | error e => rw [install_files_err_of_exists fs scriptDir home outL fs2 e hex hcl]
    rw [hstate]
    refine ⟨?_, ?_, ?_, ?_⟩
    · intro p hp
      rw [isDir_congr fs fs2 hdirs p]
      exact hp
    · intro p hp
      rw [isDir_congr fs fs2 hdirs p] at hp
      exact Or.inl hp
    · exact hgfile
    · exact hsome
  · have hexf : fs.pathExists (commandsDst home) = false := by simpa using hex
    rcases hmk : fs.mkdirParents (commandsDst home) with ⟨fs1, oe⟩
    have hmf : ∀ p, fs1.getFile p = fs.getFile p :=
      mkdirParents_getFile fs fs1 _ oe hmk
    have hmono : ∀ p, fs.isDir p = true → fs1.isDir p = true :=
      fun p => mkdirParents_mono fs fs1 _ oe hmk p
    have h1 : (fs.mkdirRec [] (commandsDst home)).1 = fs1 := by
      rw [← FS.mkdirParents, hmk]
    have hnew : ∀ p, fs1.isDir p = true →
        fs.isDir p = true ∨ ∃ t, p ++ t = commandsDst home := by
      intro p hp
      have := mkdirRec_new_dirs (commandsDst home) fs [] p (by rwa [h1])
      rcases this with hl | ⟨t, ht⟩
      · exact Or.inl hl
      · exact Or.inr ⟨t, by simpa using ht⟩
    cases oe with
    | some e =>
      have hstate : (install_files fs scriptDir home).2.1 = fs1 := by
        rw [install_files_absent_mkdir_err fs fs1 scriptDir home e hexf hmk]
      rw [hstate]
      exact ⟨hmono, hnew, fun p _ => hmf p, fun p hp => by rw [hmf p]; exact hp⟩
    | none =>
      rcases hcl : copyLoop (commandsSrc scriptDir) (commandsDst home) fs1 files_to_copy
        with ⟨outL, fs2, r⟩
      have hfs2 : (copyLoop (commandsSrc scriptDir) (commandsDst home) fs1 files_to_copy).2.1
          = fs2 := by rw [hcl]
      obtain ⟨hdirs, hunw, hgfile, hsome⟩ :=
        copyLoop_frame (commandsSrc scriptDir) (commandsDst home) files_to_copy fs1
      rw [hfs2] at hdirs hgfile hsome
      have hstate : (install_files fs scriptDir home).2.1 = fs2 := by
        cases r with
        | ok k => rw [install_files_ok_of_absent fs fs1 scriptDir home outL fs2 k hexf hmk hcl]
        | error e =>
          rw [install_files_err_of_absent fs fs1 scriptDir home outL fs2 e hexf hmk hcl]
      rw [hstate]
      refine ⟨?_, ?_, ?_, ?_⟩
      · intro p hp
        rw [isDir_congr fs1 fs2 hdirs p]
        exact hmono p hp
      · intro p hp
        rw [isDir_congr fs1 fs2 hdirs p] at hp
        exact hnew p hp
      · intro p hp
        rw [hgfile p hp, hmf p]
      · intro p hp
        apply hsome
        rw [hmf p]
        exact hp

/-- Claim C8 witness: a pre-existing unrelated destination file survives a
concrete run untouched. -/
theorem C8_frame_effect_witness :
    ((install_files
        { fsAll with files := (["home", "user", "notes.txt"], fdTemplate) :: fsAll.files }
        scriptDirW homeW).2.1).getFile ["home", "user", "notes.txt"] = some fdTemplate := by
  have h := (C8_frame_effect
    { fsAll with files := (["home", "user", "notes.txt"], fdTemplate) :: fsAll.files }
    scriptDirW homeW).2.2.2.1 ["home", "user", "notes.txt"] (by decide)
  rw [h]
  decide

/-- In the concrete fixture world, no source file path can be an initial
segment of the destination directory. -/
theorem hancW : ∀ nm ∈ files_to_copy, ∀ t : FsPath,
    commandsSrc scriptDirW ++ [nm] ++ t ≠ commandsDst homeW := by
  intro nm hnm t h
  have h2 := congrArg List.head? h
  simp [commandsSrc, commandsDst, scriptDirW, homeW] at h2

/-- In the concrete fixture world, nothing exists under the destination
directory initially. -/
theorem hemptyW : ∀ t : FsPath, t ≠ [] →
    fsAll.getFile (commandsDst homeW ++ t) = none := by
  intro t ht
  simp [fsAll, FS.getFile, lookupFile, commandsDst, homeW, fdDbapps, fdDbtest, fdTemplate]

/-- Claim C2: each manifest filename is processed in listed order —
present source files are copied to the destination (overwriting, with
content and metadata carried over) and counted, absent ones produce a
warning and are skipped — and the reported count equals the manifest size
minus the number of missing files. -/
theorem C2_per_file_processing (fs : FS) (scriptDir home : FsPath)
    (out : List OutEvent) (fs' : FS) (n : Nat)
    (hanc : ∀ nm ∈ files_to_copy, ∀ t : FsPath,
      commandsSrc scriptDir ++ [nm] ++ t ≠ commandsDst home)
    (hok : install_files fs scriptDir home = (out, fs', Except.ok n)) :
    (∃ pre, out = pre ++
      files_to_copy.map (fun f => if fs.pathExists (commandsSrc scriptDir ++ [f])
        then OutEvent.installed f else OutEvent.missingWarn f) ++
      summaryEvents (commandsDst home) n) ∧
    n = files_to_copy.length -
      (files_to_copy.filter
        (fun f => !(fs.pathExists (commandsSrc scriptDir ++ [f])))).length ∧
    (∀ f ∈ files_to_copy, fs.pathExists (commandsSrc scriptDir ++ [f]) = true →
      fs'.getFile (commandsDst home ++ [f]) = fs.getFile (commandsSrc scriptDir ++ [f])) := by
  obtain ⟨out1, fs1, outL, hbr, hcl, hout⟩ :=
    install_files_ok_inv fs scriptDir home out fs' n hok
  have hpe : ∀ nm ∈ files_to_copy,
      fs1.pathExists (commandsSrc scriptDir ++ [nm]) =
        fs.pathExists (commandsSrc scriptDir ++ [nm]) := by
    intro nm hnm
    rcases hbr with ⟨-, -, heq⟩ | ⟨-, -, hmk⟩
    · rw [heq]
    · exact mkdirParents_pathExists_off_path fs fs1 _ _ none hmk
        (fun t h => hanc nm hnm t (by simpa [List.append_assoc] using h))
  have hgf : ∀ p, fs1.getFile p = fs.getFile p := by
    rcases hbr with ⟨-, -, heq⟩ | ⟨-, -, hmk⟩
    · intro p; rw [heq]
    · exact mkdirParents_getFile fs fs1 _ none hmk
  have hk2 : (copyLoop (commandsSrc scriptDir) (commandsDst home) fs1 files_to_copy).2.2 =
      Except.ok n := by rw [hcl]
  obtain ⟨hlout, hcnt, hget⟩ := copyLoop_ok_spec (commandsSrc scriptDir) (commandsDst home)
    files_to_copy fs1 n hk2 (by decide)
  have houtL : (copyLoop (commandsSrc scriptDir) (commandsDst home) fs1 files_to_copy).1 =
      outL := by rw [hcl]
  have hfs' : (copyLoop (commandsSrc scriptDir) (commandsDst home) fs1 files_to_copy).2.1 =
      fs' := by rw [hcl]
  rw [houtL] at hlout
  rw [hfs'] at hget
  refine ⟨?_, ?_, ?_⟩
  · refine ⟨out1 ++ [OutEvent.copying], ?_⟩
    rw [hout, hlout,
      map_congr_mem files_to_copy _ _ (fun nm hnm => by rw [hpe nm hnm])]
    simp
  · rw [hcnt, filter_congr_mem files_to_copy _ _ (fun nm hnm => by rw [hpe nm hnm])]
    exact length_filter_not_sub files_to_copy _
  · intro f hf hex
    have h3 := hget f hf
    rw [hpe f hf] at h3
    simp only [hgf] at h3
    rw [h3, if_pos hex]

/-- Claim C2 witness: with one of the three files missing, the run reports
two successes and copies the present files with their data intact. -/
theorem C2_per_file_processing_witness :
    2 = files_to_copy.length -
      (files_to_copy.filter
        (fun f => !(fsTwo.pathExists (commandsSrc scriptDirW ++ [f])))).length ∧
    ((install_files fsTwo scriptDirW homeW).2.1).getFile
      (commandsDst homeW ++ ["dbapps.md"]) = some fdDbapps := by
  have h := C2_per_file_processing fsTwo scriptDirW homeW
    (install_files fsTwo scriptDirW homeW).1
    (install_files fsTwo scriptDirW homeW).2.1 2
    (by
      intro nm hnm t hh
      have h2 := congrArg List.head? hh
      simp [commandsSrc, commandsDst, scriptDirW, homeW] at h2)
    (by decide)
  refine ⟨h.2.1, ?_⟩
  rw [h.2.2 "dbapps.md" (by decide) (by decide)]
  decide

/-- Claim C1: on an initially-absent destination, a completing run creates
the destination directory together with all missing parent segments, and
afterwards the destination contains exactly the manifest files that
existed in the source directory. -/
theorem C1_fresh_destination (fs : FS) (scriptDir home : FsPath)
    (out : List OutEvent) (fs' : FS) (n : Nat)
    (habs : fs.pathExists (commandsDst home) = false)
    (hempty : ∀ t : FsPath, t ≠ [] → fs.getFile (commandsDst home ++ t) = none)
    (hanc : ∀ nm ∈ files_to_copy, ∀ t : FsPath,
      commandsSrc scriptDir ++ [nm] ++ t ≠ commandsDst home)
    (hok : install_files fs scriptDir home = (out, fs', Except.ok n)) :
    fs'.isDir (commandsDst home) = true ∧
    (∀ p t : FsPath, p ++ t = commandsDst home → p ≠ [] → fs'.isDir p = true) ∧
    (∀ t : FsPath, t ≠ [] →
      fs'.getFile (commandsDst home ++ t) =
        if ∃ nm ∈ files_to_copy, t = [nm] ∧
            fs.pathExists (commandsSrc scriptDir ++ [nm]) = true
        then fs.getFile (commandsSrc scriptDir ++ t) else none) := by
  obtain ⟨out1, fs1, outL, hbr, hcl, -⟩ :=
    install_files_ok_inv fs scriptDir home out fs' n hok
  rcases hbr with ⟨hex, -, -⟩ | ⟨-, -, hmk⟩
  · rw [hex] at habs; cases habs
  have hmk2 : fs.mkdirRec [] (commandsDst home) = (fs1, none) := by
    rw [← FS.mkdirParents, hmk]
  have h1 : (fs.mkdirRec [] (commandsDst home)).1 = fs1 := by rw [hmk2]
  have h2 : (fs.mkdirRec [] (commandsDst home)).2 = none := by rw [hmk2]
  have hdstne : commandsDst home ≠ [] := by simp [commandsDst]
  have hdst1 : fs1.isDir (commandsDst home) = true := by
    have := mkdirRec_target (commandsDst home) fs [] (Or.inr hdstne) h2
    rw [h1] at this
    simpa using this
  have hparents : ∀ p t : FsPath, p ++ t = commandsDst home → p ≠ [] →
      fs1.isDir p = true := by
    intro p t hp hpne
    have := mkdirRec_ancestors (commandsDst home) fs [] h2 p t hp.symm hpne
    rw [h1] at this
    simpa using this
  obtain ⟨hdirs, -, hgfile, -⟩ :=
    copyLoop_frame (commandsSrc scriptDir) (commandsDst home) files_to_copy fs1
  have hfs' : (copyLoop (commandsSrc scriptDir) (commandsDst home) fs1 files_to_copy).2.1 =
      fs' := by rw [hcl]
  rw [hfs'] at hdirs hgfile
  have hk2 : (copyLoop (commandsSrc scriptDir) (commandsDst home) fs1 files_to_copy).2.2 =
      Except.ok n := by rw [hcl]
  obtain ⟨-, -, hget⟩ := copyLoop_ok_spec (commandsSrc scriptDir) (commandsDst home)
    files_to_copy fs1 n hk2 (by decide)
  rw [hfs'] at hget
  have hg1 : ∀ p, fs1.getFile p = fs.getFile p := mkdirParents_getFile fs fs1 _ none hmk
  have hpe1 : ∀ nm ∈ files_to_copy,
      fs1.pathExists (commandsSrc scriptDir ++ [nm]) =
        fs.pathExists (commandsSrc scriptDir ++ [nm]) := by
    intro nm hnm
    exact mkdirParents_pathExists_off_path fs fs1 _ _ none hmk
      (fun t h => hanc nm hnm t (by simpa [List.append_assoc] using h))
  refine ⟨?_, ?_, ?_⟩
  · rw [isDir_congr fs1 fs' hdirs]
    exact hdst1
  · intro p t hp hpne
    rw [isDir_congr fs1 fs' hdirs]
    exact hparents p t hp hpne
  · intro t ht
    by_cases hcond : ∃ nm ∈ files_to_copy, t = [nm] ∧
        fs.pathExists (commandsSrc scriptDir ++ [nm]) = true
    · rw [if_pos hcond]
      obtain ⟨nm, hnm, hteq, hexs⟩ := hcond
      subst hteq
      have h3 := hget nm hnm
      rw [hpe1 nm hnm, if_pos hexs] at h3
      rw [h3, hg1]
    · rw [if_neg hcond]
      by_cases hsh : ∃ nm ∈ files_to_copy, t = [nm]
      · obtain ⟨nm, hnm, hteq⟩ := hsh
        subst hteq
        have hexf : fs.pathExists (commandsSrc scriptDir ++ [nm]) = false := by
          cases hv : fs.pathExists (commandsSrc scriptDir ++ [nm]) with
          | false => rfl
          | true => exact absurd ⟨nm, hnm, rfl, hv⟩ hcond
        have h3 := hget nm hnm
        rw [hpe1 nm hnm] at h3
        simp only [hexf, Bool.false_eq_true, if_false] at h3
        rw [h3, hg1]
        exact hempty [nm] (by simp)
      · have hne : ∀ nm ∈ files_to_copy,
            commandsDst home ++ t ≠ commandsDst home ++ [nm] := by
          intro nm hnm h
          exact hsh ⟨nm, hnm, List.append_cancel_left h⟩
        rw [hgfile _ hne, hg1]
        exact hempty t ht

/-- Claim C1 witness: on the fixture with the destination absent, the run
creates the destination tree and copies `dbapps.md` there. -/
theorem C1_fresh_destination_witness :
    ((install_files fsAll scriptDirW homeW).2.1).isDir (commandsDst homeW) = true ∧
    ((install_files fsAll scriptDirW homeW).2.1).isDir ["home", "user", ".claude"] = true ∧
    ((install_files fsAll scriptDirW homeW).2.1).getFile
      (commandsDst homeW ++ ["dbapps.md"]) = some fdDbapps := by
  have h := C1_fresh_destination fsAll scriptDirW homeW
    (install_files fsAll scriptDirW homeW).1
    (install_files fsAll scriptDirW homeW).2.1 3
    (by decide) hemptyW hancW (by decide)
  refine ⟨h.1, ?_, ?_⟩
  · exact h.2.1 ["home", "user", ".claude"] ["commands"] (by decide) (by decide)
  · have h3 := h.2.2 ["dbapps.md"] (by simp)
    rw [if_pos ⟨"dbapps.md", by decide, rfl, by decide⟩] at h3
    rw [h3]
    decide

/-- Claim C10: when the destination path exists but is a regular file,
directory creation is skipped entirely (no "Creating" line, no state
change at all), the first attempted copy raises a filesystem exception,
and the process exits with status 1 via the top-level handler. -/
theorem C10_destination_not_dir (u : Bool) (g : GitEnv) (fs : FS) (scriptDir home : FsPath)
    (hfile : fs.isFile (commandsDst home) = true)
    (hnd : fs.isDir (commandsDst home) = false)
    (hsome : ∃ f ∈ files_to_copy, fs.pathExists (commandsSrc scriptDir ++ [f]) = true) :
    (∀ q, OutEvent.creating q ∉ (runScript u g fs scriptDir home).1) ∧
    (runScript u g fs scriptDir home).2.1 = fs ∧
    (∃ e, (install_files fs scriptDir home).2.2 = Except.error e ∧
      OutEvent.errorMsg (errMsg e) ∈ (runScript u g fs scriptDir home).1) ∧
    (runScript u g fs scriptDir home).2.2 = 1 := by
  have hex : fs.pathExists (commandsDst home) = true := by
    simp [FS.pathExists, hfile]
  obtain ⟨e, he⟩ := copyLoop_error_no_dir (commandsSrc scriptDir) (commandsDst home)
    files_to_copy fs hnd hsome
  have hcl : copyLoop (commandsSrc scriptDir) (commandsDst home) fs files_to_copy =
      ((copyLoop (commandsSrc scriptDir) (commandsDst home) fs files_to_copy).1,
       fs, Except.error e) := by
    rw [← he]
  have hinst := install_files_err_of_exists fs scriptDir home
    (copyLoop (commandsSrc scriptDir) (commandsDst home) fs files_to_copy).1 fs e hex hcl
  have hres : (install_files fs scriptDir home).2.2 = Except.error e := by rw [hinst]
  have hstate : (install_files fs scriptDir home).2.1 = fs := by rw [hinst]
  have h1 : (install_files fs scriptDir home).1 =
      OutEvent.copying ::
        (copyLoop (commandsSrc scriptDir) (commandsDst home) fs files_to_copy).1 := by
    rw [hinst]
  rw [runScript_of_err u g fs scriptDir home e hres]
  refine ⟨?_, hstate, ⟨e, hres, List.mem_append_right _ (by simp)⟩, rfl⟩
  intro q hq
  rw [mainRun_eq] at hq
  rcases List.mem_append.mp hq with hq | hq
  · rcases List.mem_append.mp hq with hq | hq
    · rcases List.mem_append.mp hq with hq | hq
      · cases u <;> simp at hq
      · cases u with
        | false => simp at hq
        | true => exact update_no_creating g q (by simpa using hq)
    · rw [h1] at hq
      rcases List.mem_cons.mp hq with hq | hq
      · cases hq
      · rcases copyLoop_events (commandsSrc scriptDir) (commandsDst home)
          files_to_copy fs (OutEvent.creating q) hq with ⟨f, hf⟩ | ⟨f, hf⟩
        · cases hf
        · cases hf
  · simp at hq

/-- Claim C10 witness: with a file occupying the destination path, a
concrete run exits 1 and never prints a "Creating" line. -/
theorem C10_destination_not_dir_witness :
    (runScript false gitOkEnv fsOccupied scriptDirW homeW).2.2 = 1 ∧
    OutEvent.creating (commandsDst homeW) ∉
      (runScript false gitOkEnv fsOccupied scriptDirW homeW).1 := by
  have h := C10_destination_not_dir false gitOkEnv fsOccupied scriptDirW homeW
    (by decide) (by decide) (by decide)
  exact ⟨h.2.2.2, h.1 _⟩

/-- Claim C6: running the installer a second time from the state a
successful run produced — the source directory unchanged and distinct
from the destination — yields the identical destination state and the
same reported success count. -/
theorem C6_idempotent (fs : FS) (scriptDir home : FsPath)
    (out1 : List OutEvent) (fs1 : FS) (n1 : Nat)
    (hsd : commandsSrc scriptDir ≠ commandsDst home)
    (h1 : install_files fs scriptDir home = (out1, fs1, Except.ok n1)) :
    ∃ out2, install_files fs1 scriptDir home = (out2, fs1, Except.ok n1) := by
  obtain ⟨o1, fs0, outL, hbr, hcl, -⟩ :=
    install_files_ok_inv fs scriptDir home out1 fs1 n1 h1
  obtain ⟨hdirs, -, hgfile, -⟩ :=
    copyLoop_frame (commandsSrc scriptDir) (commandsDst home) files_to_copy fs0
  have hfs1 : (copyLoop (commandsSrc scriptDir) (commandsDst home) fs0 files_to_copy).2.1 =
      fs1 := by rw [hcl]
  rw [hfs1] at hdirs hgfile
  have hdst0 : fs0.pathExists (commandsDst home) = true := by
    rcases hbr with ⟨hex, -, heq⟩ | ⟨-, -, hmk⟩
    · rw [heq]; exact hex
    · have hmk2 : fs.mkdirRec [] (commandsDst home) = (fs0, none) := by
        rw [← FS.mkdirParents, hmk]
      have hd := mkdirRec_target (commandsDst home) fs []
        (Or.inr (by simp [commandsDst])) (by rw [hmk2])
      rw [hmk2] at hd
      simp only [List.nil_append] at hd
      simp [FS.pathExists, hd]
  have hdst1 : fs1.pathExists (commandsDst home) = true := by
    rw [pathExists_congr fs0 fs1 _ (isDir_congr fs0 fs1 hdirs _)
      (hgfile _ (fun f _ => ne_append_singleton _ f))]
    exact hdst0
  have hagain := copyLoop_again (commandsSrc scriptDir) (commandsDst home) hsd
    files_to_copy fs0 outL fs1 n1 (by decide) hcl
  exact ⟨_, install_files_ok_of_exists fs1 scriptDir home outL fs1 n1 hdst1 hagain⟩

/-- Claim C6 witness: a concrete second run reproduces the state and the
count of the first. -/
theorem C6_idempotent_witness :
    ∃ out2, install_files (install_files fsAll scriptDirW homeW).2.1 scriptDirW homeW =
      (out2, (install_files fsAll scriptDirW homeW).2.1, Except.ok 3) :=
  C6_idempotent fsAll scriptDirW homeW (install_files fsAll scriptDirW homeW).1
    (install_files fsAll scriptDirW homeW).2.1 3 (by decide) (by decide)
